import Mathlib

set_option maxRecDepth 8192

/-!
Verification of the receive queue and command dispatcher of the 2716prg
EPROM-programmer firmware (`src/2708prg.X/main.c`).  The repository file
contains two firmware variants (a 2708 variant and a 2716/2732/2532
variant); they share the queue code verbatim.  Machine integers are modelled
as `Nat`/`Int` with explicit wrap where the C types can overflow; the
`int16_t` cursors `head`/`tail` only ever hold values in `[0, QUEUESIZE)`
in reachable states, which the reachability invariant below establishes.
Hardware output (UART text, LEDs, port latches) is modelled as explicit
data returned by the functions; timing delays have no functional content
and are omitted.
-/

namespace EPROM

/-- `#define QUEUESIZE 1024` -/
def QUEUESIZE : Nat := 1024

/-- `#define ENDQUEUE QUEUESIZE-1` -/
def ENDQUEUE : Nat := QUEUESIZE - 1

/-- `#define HIWATER QUEUESIZE-32` (compared against the signed size value). -/
def HIWATER : Int := (QUEUESIZE : Int) - 32

/-- `#define LOWATER 32` -/
def LOWATER : Int := 32

/-- The shared mutable state of the firmware queue: the `queue` array
(bytes, indexed 0..1023; modelled as a total function), the two cursors
`head`/`tail` (C `int16_t`, here `Nat`; reachable values stay below
`QUEUESIZE`), the CTS flow-control output latch (`PORTAbits.RA4`), the
`cmd_active` flag, and the diagnostic counters `bytes_pushed` /
`bytes_popped` of the 2708 variant. -/
structure QState where
  queue : Nat → Nat
  hd : Nat
  tl : Nat
  cts : Bool
  cmdActive : Bool
  pushed : Nat
  popped : Nat

/-- `addone`: next position clockwise, wrapping at `ENDQUEUE`. -/
def addone (i : Nat) : Nat :=
  if i = ENDQUEUE then 0 else i + 1

/-- The signed value `addone(tail) - head` computed (in `int16_t`) at the
top of both `size()` and `push()`.  For in-range cursors the subtraction
cannot overflow `int16_t`, so plain `Int` subtraction is faithful. -/
def rawSize (s : QState) : Int :=
  (addone s.tl : Int) - (s.hd : Int)

/-- `size()`: returns `addone(tail) - head` and, as a side effect, runs the
two-threshold CTS update (`if (s > HIWATER) setCTS(true); if (s < LOWATER)
setCTS(false);`). -/
def size (s : QState) : Int × QState :=
  let v := rawSize s
  let s1 := if HIWATER < v then { s with cts := true } else s
  let s2 := if v < LOWATER then { s1 with cts := false } else s1
  (v, s2)

/-- `empty()`: the queue is empty exactly when `addone(tail) == head`. -/
def empty (s : QState) : Bool :=
  addone s.tl = s.hd

/-- `push(c)`: recompute the signed size and set CTS (`if (s > HIWATER)
setCTS(true); else setCTS(false);` — note the `else`, unlike `size()`);
then, if `addone(addone(tail)) == head`, drop the byte (the C flashes the
orange LED and changes nothing else), otherwise advance `tail` and store
`c` there, incrementing `bytes_pushed`. -/
def push (c : Nat) (s : QState) : QState :=
  let s1 := if HIWATER < rawSize s then { s with cts := true } else { s with cts := false }
  if addone (addone s1.tl) = s1.hd then
    s1
  else
    { s1 with
      tl := addone s1.tl
      queue := fun j => if j = addone s1.tl then c else s1.queue j
      pushed := s1.pushed + 1 }

/-- `pop()`: return `queue[head]` and advance `head`, incrementing
`bytes_popped`.  The C function busy-waits while the queue is empty (so it
never observes an empty queue at the cursor update); the model is used by
the theorems only on non-empty states, matching that discipline. -/
def pop (s : QState) : Nat × QState :=
  (s.queue s.hd, { s with hd := addone s.hd, popped := s.popped + 1 })

/-- `first()`: the oldest buffered byte, without removing it. -/
def first (s : QState) : Nat :=
  s.queue s.hd

/-- `clear()`: `memset` the array to zero, `head = 0`, `tail = ENDQUEUE`,
`cmd_active = false`.  CTS and the diagnostic counters are not touched. -/
def clear (s : QState) : QState :=
  { s with queue := fun _ => 0, hd := 0, tl := ENDQUEUE, cmdActive := false }

/-- Abstraction: the number of pending (pushed but not yet popped) bytes,
read off the cursors. -/
def occ (s : QState) : Nat :=
  (addone s.tl + QUEUESIZE - s.hd) % QUEUESIZE

/-- Abstraction: the pending bytes in queue order (oldest first). -/
def absList (s : QState) : List Nat :=
  (List.range (occ s)).map (fun i => s.queue ((s.hd + i) % QUEUESIZE))

/-- Reachable queue states, paired with the model FIFO of pending bytes:
start from a cleared state; `push` appends when fewer than `QUEUESIZE - 1`
bytes are pending and is dropped at `QUEUESIZE - 1` pending (the code's
`addone(addone(tail)) == head` condition); `pop` (applied only to
non-empty states, as the busy-wait guarantees) removes the oldest byte. -/
inductive Reach : QState → List Nat → Prop
  | init (s : QState) : Reach (clear s) []
  | stepPush {s : QState} {l : List Nat} (c : Nat) :
      Reach s l → Reach (push c s) (if l.length = QUEUESIZE - 1 then l else l ++ [c])
  | stepPop {s : QState} {l : List Nat} :
      Reach s l → l ≠ [] → Reach (pop s).2 l.tail

-- Arithmetic helpers about `addone`.

theorem addone_lt {i : Nat} (h : i < QUEUESIZE) : addone i < QUEUESIZE := by
  unfold addone
  split
  · decide
  · unfold QUEUESIZE at h ⊢
    unfold ENDQUEUE QUEUESIZE at *
    omega

theorem addone_eq {i : Nat} (h : i < QUEUESIZE) : addone i = (i + 1) % QUEUESIZE := by
  unfold addone ENDQUEUE QUEUESIZE at *
  split
  · omega
  · omega

/-- The drop condition of `push` is exactly "occupancy = QUEUESIZE - 1". -/
theorem drop_iff {s : QState} (hh : s.hd < QUEUESIZE) (ht : s.tl < QUEUESIZE) :
    (addone (addone s.tl) = s.hd) ↔ occ s = QUEUESIZE - 1 := by
  have h1 : addone s.tl = (s.tl + 1) % QUEUESIZE := addone_eq ht
  have h2 : addone (addone s.tl) = ((s.tl + 1) % QUEUESIZE + 1) % QUEUESIZE := by
    rw [h1]
    exact addone_eq (Nat.mod_lt _ (by unfold QUEUESIZE; omega))
  unfold occ
  rw [h2, h1]
  unfold QUEUESIZE at *
  omega

/-- On the drop branch, `push` only updates CTS. -/
theorem push_of_full {s : QState} (c : Nat) (hfull : addone (addone s.tl) = s.hd) :
    push c s = { s with cts := if HIWATER < rawSize s then true else false } := by
  by_cases hw : HIWATER < rawSize s
  · simp [push, hw, hfull]
  · simp [push, hw, hfull]

/-- On the store branch, `push` updates CTS, advances `tail`, stores `c`
there and bumps `bytes_pushed`. -/
theorem push_of_not_full {s : QState} (c : Nat) (hfull : ¬ addone (addone s.tl) = s.hd) :
    push c s = { s with
      cts := if HIWATER < rawSize s then true else false
      tl := addone s.tl
      queue := fun j => if j = addone s.tl then c else s.queue j
      pushed := s.pushed + 1 } := by
  by_cases hw : HIWATER < rawSize s
  · simp [push, hw, hfull]
  · simp [push, hw, hfull]

theorem idx_ne {s : QState} {i : Nat} (ht : s.tl < QUEUESIZE) (hi : i < occ s) :
    (s.hd + i) % QUEUESIZE ≠ addone s.tl := by
  unfold occ at hi
  rw [addone_eq ht] at hi ⊢
  unfold QUEUESIZE at *
  omega

theorem idx_last {s : QState} (hh : s.hd < QUEUESIZE) (ht : s.tl < QUEUESIZE) :
    (s.hd + occ s) % QUEUESIZE = addone s.tl := by
  unfold occ
  rw [addone_eq ht]
  unfold QUEUESIZE at *
  omega

/-- A successful push raises the occupancy by one. -/
theorem occ_push_state {s : QState} (c : Nat) (hh : s.hd < QUEUESIZE) (ht : s.tl < QUEUESIZE)
    (hfull : ¬ addone (addone s.tl) = s.hd) :
    occ (push c s) = occ s + 1 := by
  rw [push_of_not_full c hfull]
  show (addone (addone s.tl) + QUEUESIZE - s.hd) % QUEUESIZE = occ s + 1
  have hne : occ s ≠ QUEUESIZE - 1 := fun hq => hfull ((drop_iff hh ht).mpr hq)
  have h2 : addone (addone s.tl) = ((s.tl + 1) % QUEUESIZE + 1) % QUEUESIZE := by
    rw [addone_eq ht]
    exact addone_eq (Nat.mod_lt _ (by unfold QUEUESIZE; omega))
  unfold occ at hne ⊢
  rw [h2]
  rw [addone_eq ht] at hne ⊢
  unfold QUEUESIZE at *
  omega

/-- A successful push appends the byte to the pending list. -/
theorem absList_push_state {s : QState} (c : Nat) (hh : s.hd < QUEUESIZE) (ht : s.tl < QUEUESIZE)
    (hfull : ¬ addone (addone s.tl) = s.hd) :
    absList (push c s) = absList s ++ [c] := by
  have hoccu := occ_push_state c hh ht hfull
  unfold absList
  rw [hoccu, List.range_succ, List.map_append]
  have hq : (push c s).queue = fun j => if j = addone s.tl then c else s.queue j := by
    rw [push_of_not_full c hfull]
  have hhd : (push c s).hd = s.hd := by
    rw [push_of_not_full c hfull]
  rw [hq, hhd]
  congr 1
  · apply List.map_congr_left
    intro i hi
    have hi2 : i < occ s := List.mem_range.mp hi
    simp only []
    rw [if_neg (idx_ne ht hi2)]
  · simp only [List.map_cons, List.map_nil]
    rw [idx_last hh ht, if_pos rfl]

/-- Popping from a non-empty queue lowers the occupancy by one. -/
theorem occ_pop_state {s : QState} (hh : s.hd < QUEUESIZE) (ht : s.tl < QUEUESIZE)
    (hne : occ s ≠ 0) : occ (pop s).2 = occ s - 1 := by
  show (addone s.tl + QUEUESIZE - addone s.hd) % QUEUESIZE = occ s - 1
  unfold occ at hne ⊢
  rw [addone_eq ht] at hne ⊢
  rw [addone_eq hh]
  unfold QUEUESIZE at *
  omega

/-- The pending list of a non-empty queue is its head byte followed by the
pending list after `pop`. -/
theorem absList_cons {s : QState} (hh : s.hd < QUEUESIZE) (ht : s.tl < QUEUESIZE)
    (hne : occ s ≠ 0) : absList s = s.queue s.hd :: absList (pop s).2 := by
  unfold absList
  rw [occ_pop_state hh ht hne]
  obtain ⟨k, hk⟩ : ∃ k, occ s = k + 1 := ⟨occ s - 1, by omega⟩
  rw [hk]
  simp only [Nat.add_sub_cancel]
  rw [List.range_succ_eq_map]
  simp only [List.map_cons, List.map_map]
  congr 1
  · rw [Nat.add_zero, Nat.mod_eq_of_lt hh]
  · apply List.map_congr_left
    intro i _
    simp only [Function.comp_apply]
    show s.queue ((s.hd + Nat.succ i) % QUEUESIZE) = s.queue (((pop s).2.hd + i) % QUEUESIZE)
    congr 1
    show (s.hd + Nat.succ i) % QUEUESIZE = (addone s.hd + i) % QUEUESIZE
    rw [addone_eq hh]
    unfold QUEUESIZE
    omega

/-- Queue emptiness coincides with zero occupancy for in-range cursors. -/
theorem empty_iff_occ {s : QState} (hh : s.hd < QUEUESIZE) (ht : s.tl < QUEUESIZE) :
    empty s = true ↔ occ s = 0 := by
  unfold empty occ
  rw [addone_eq ht]
  unfold QUEUESIZE at *
  constructor
  · intro h
    have := of_decide_eq_true h
    omega
  · intro h
    apply decide_eq_true
    omega

/-- A cleared queue has zero occupancy. -/
theorem occ_clear (s : QState) : occ (clear s) = 0 := by
  simp [occ, clear, addone, ENDQUEUE, QUEUESIZE]

/-- A cleared queue has no pending bytes. -/
theorem absList_clear (s : QState) : absList (clear s) = [] := by
  simp [absList, occ_clear]

/-- The cursor/abstraction invariant of all reachable states: cursors stay
in range, at most `QUEUESIZE - 1` bytes are pending, and the concrete
cursors/array refine the model FIFO. -/
theorem reach_inv {s : QState} {l : List Nat} (h : Reach s l) :
    s.hd < QUEUESIZE ∧ s.tl < QUEUESIZE ∧ l.length ≤ QUEUESIZE - 1 ∧
      occ s = l.length ∧ absList s = l := by
  induction h with
  | init s =>
    refine ⟨?_, ?_, ?_, occ_clear s, absList_clear s⟩
    · show (0 : Nat) < QUEUESIZE
      unfold QUEUESIZE
      omega
    · show ENDQUEUE < QUEUESIZE
      unfold ENDQUEUE QUEUESIZE
      omega
    · show (0 : Nat) ≤ QUEUESIZE - 1
      omega
  | stepPush c hr ih =>
    obtain ⟨hh, ht, hlen, hocc, habs⟩ := ih
    rename_i s l
    by_cases hfull : addone (addone s.tl) = s.hd
    · have hocc1023 : occ s = QUEUESIZE - 1 := (drop_iff hh ht).mp hfull
      have hlen1023 : l.length = QUEUESIZE - 1 := by rw [← hocc]; exact hocc1023
      rw [if_pos hlen1023, push_of_full c hfull]
      exact ⟨hh, ht, hlen, hocc, habs⟩
    · have hoccne : occ s ≠ QUEUESIZE - 1 := fun hq => hfull ((drop_iff hh ht).mpr hq)
      have hlenne : l.length ≠ QUEUESIZE - 1 := by rw [← hocc]; exact hoccne
      rw [if_neg hlenne]
      refine ⟨?_, ?_, ?_, ?_, ?_⟩
      · rw [push_of_not_full c hfull]; exact hh
      · rw [push_of_not_full c hfull]; exact addone_lt ht
      · rw [List.length_append, List.length_singleton]
        unfold QUEUESIZE at *
        omega
      · rw [occ_push_state c hh ht hfull, hocc, List.length_append, List.length_singleton]
      · rw [absList_push_state c hh ht hfull, habs]
  | stepPop hr hne ih =>
    obtain ⟨hh, ht, hlen, hocc, habs⟩ := ih
    rename_i s l
    have hoccne : occ s ≠ 0 := by
      rw [hocc]
      intro hz
      exact hne (List.eq_nil_of_length_eq_zero hz)
    refine ⟨?_, ?_, ?_, ?_, ?_⟩
    · show addone s.hd < QUEUESIZE
      exact addone_lt hh
    · exact ht
    · rw [List.length_tail]
      unfold QUEUESIZE at *
      omega
    · rw [occ_pop_state hh ht hoccne, hocc, List.length_tail]
    · have := absList_cons hh ht hoccne
      rw [habs] at this
      cases l with
      | nil => exact absurd rfl hne
      | cons a t =>
        simp only [List.tail_cons]
        exact (((List.cons.injEq _ _ _ _).mp this).2).symm

/-- A push onto a queue with at most `QUEUESIZE - 2` pending bytes is
stored (never dropped) and appends to the pending list. -/
theorem push_succ {s : QState} {l : List Nat} (c : Nat) (h : Reach s l)
    (hlen : l.length ≤ QUEUESIZE - 2) : Reach (push c s) (l ++ [c]) := by
  have h2 := Reach.stepPush c h
  rw [if_neg (by unfold QUEUESIZE at *; omega)] at h2
  exact h2

/-- Popping a queue whose oldest pending byte is `c` returns `c` and
leaves the remaining pending bytes. -/
theorem pop_cons {s : QState} {c : Nat} {l : List Nat} (h : Reach s (c :: l)) :
    (pop s).1 = c ∧ Reach (pop s).2 l := by
  obtain ⟨hh, ht, _, hocc, habs⟩ := reach_inv h
  have hoccne : occ s ≠ 0 := by rw [hocc]; simp
  have hcons := absList_cons hh ht hoccne
  rw [habs] at hcons
  have hfirst : (pop s).1 = c := by
    show s.queue s.hd = c
    exact ((List.cons.injEq _ _ _ _).mp hcons).1.symm
  refine ⟨hfirst, ?_⟩
  have h2 := Reach.stepPop h (by simp)
  simpa using h2

/-- The main loop's sequence of pushes: `foldl` of `push`. -/
def pushList (cs : List Nat) (s : QState) : QState :=
  cs.foldl (fun t c => push c t) s

/-- `n` consecutive `pop()` calls: the popped bytes in order, and the
final state. -/
def popN : Nat → QState → List Nat × QState
  | 0, s => ([], s)
  | Nat.succ n, s =>
    let p := pop s
    let q := popN n p.2
    (p.1 :: q.1, q.2)

/-- Pushing a list of bytes that fits (together with what is already
pending) below the drop threshold appends it to the pending list. -/
theorem pushList_reach {cs : List Nat} {s : QState} {l : List Nat} (h : Reach s l)
    (hlen : l.length + cs.length ≤ QUEUESIZE - 1) :
    Reach (pushList cs s) (l ++ cs) := by
  induction cs generalizing s l with
  | nil => simpa [pushList] using h
  | cons c cs ih =>
    have h1 : Reach (push c s) (l ++ [c]) :=
      push_succ c h (by simp at hlen; unfold QUEUESIZE at *; omega)
    have h2 := ih h1 (by simp at hlen ⊢; unfold QUEUESIZE at *; omega)
    simpa [pushList, List.foldl_cons] using h2

/-- Popping as many times as there are pending bytes returns exactly the
pending bytes, oldest first. -/
theorem popN_spec {s : QState} {l : List Nat} (h : Reach s l) :
    (popN l.length s).1 = l ∧ Reach (popN l.length s).2 [] := by
  induction l generalizing s with
  | nil => exact ⟨rfl, h⟩
  | cons c t ih =>
    obtain ⟨hc, hr⟩ := pop_cons h
    obtain ⟨ih1, ih2⟩ := ih hr
    constructor
    · show (pop s).1 :: (popN t.length (pop s).2).1 = c :: t
      rw [hc, ih1]
    · exact ih2

/-- A trace of queue operations, `true` = `push 0` (an arrival), `false` =
`pop` (a consumption); used to exhibit concrete reachable states. -/
def runOps : List Bool → QState → QState
  | [], s => s
  | true :: ops, s => runOps ops (push 0 s)
  | false :: ops, s => runOps ops (pop s).2

/-- The model FIFO along a trace; `none` if the trace pops an empty
queue (such traces are not used). -/
def modelRun : List Bool → List Nat → Option (List Nat)
  | [], l => some l
  | true :: ops, l => modelRun ops (if l.length = QUEUESIZE - 1 then l else l ++ [0])
  | false :: ops, l =>
    match l with
    | [] => none
    | _ :: t => modelRun ops t

/-- Running a trace whose model run succeeds yields a reachable state with
the model's pending list. -/
theorem runOps_reach {ops : List Bool} {s : QState} {l l2 : List Nat}
    (h : Reach s l) (hm : modelRun ops l = some l2) :
    Reach (runOps ops s) l2 := by
  induction ops generalizing s l with
  | nil =>
    simp only [modelRun, Option.some.injEq] at hm
    rw [← hm]
    exact h
  | cons op ops ih =>
    cases op with
    | true => exact ih (Reach.stepPush 0 h) hm
    | false =>
      cases l with
      | nil => simp [modelRun] at hm
      | cons c t =>
        have hr := Reach.stepPop h (by simp)
        simp only [List.tail_cons] at hr
        exact ih hr hm

/-- Projection: `push` never moves `head`. -/
theorem push_hd (c : Nat) (s : QState) : (push c s).hd = s.hd := by
  by_cases hfull : addone (addone s.tl) = s.hd
  · rw [push_of_full c hfull]
  · rw [push_of_not_full c hfull]

/-- Projection: `push` advances `tail` unless the byte is dropped. -/
theorem push_tl (c : Nat) (s : QState) :
    (push c s).tl = if addone (addone s.tl) = s.hd then s.tl else addone s.tl := by
  by_cases hfull : addone (addone s.tl) = s.hd
  · rw [push_of_full c hfull, if_pos hfull]
  · rw [push_of_not_full c hfull, if_neg hfull]

/-- Projection: `push` always recomputes CTS from the pre-push signed
size, with no hysteresis band. -/
theorem push_cts (c : Nat) (s : QState) :
    (push c s).cts = decide (HIWATER < rawSize s) := by
  by_cases hfull : addone (addone s.tl) = s.hd
  · rw [push_of_full c hfull]
    by_cases hw : HIWATER < rawSize s
    · simp [hw]
    · simp [hw]
  · rw [push_of_not_full c hfull]
    by_cases hw : HIWATER < rawSize s
    · simp [hw]
    · simp [hw]

/-- One step of the cursor/CTS model of a trace operation. -/
def curStep : Bool → Nat × Nat × Bool → Nat × Nat × Bool
  | true, (h, t, _) =>
      (h, if addone (addone t) = h then t else addone t,
        decide (HIWATER < ((addone t : Int) - (h : Int))))
  | false, (h, t, b) => (addone h, t, b)

/-- The cursor/CTS model of a whole trace. -/
def curRun : List Bool → Nat × Nat × Bool → Nat × Nat × Bool
  | [], p => p
  | op :: ops, p => curRun ops (curStep op p)

theorem curRun_append (a b : List Bool) (p : Nat × Nat × Bool) :
    curRun (a ++ b) p = curRun b (curRun a p) := by
  induction a generalizing p with
  | nil => rfl
  | cons op a ih =>
    simp only [List.cons_append, curRun]
    exact ih _

/-- The cursor/CTS model tracks the head, tail and CTS fields of a real
trace exactly. -/
theorem runOps_cur (ops : List Bool) : ∀ s : QState,
    ((runOps ops s).hd, (runOps ops s).tl, (runOps ops s).cts) =
      curRun ops (s.hd, s.tl, s.cts) := by
  induction ops with
  | nil => intro s; rfl
  | cons op ops ih =>
    intro s
    cases op with
    | true =>
      have hp : ((push 0 s).hd, (push 0 s).tl, (push 0 s).cts) =
          curStep true (s.hd, s.tl, s.cts) := by
        rw [push_hd, push_tl, push_cts]
        rfl
      show ((runOps ops (push 0 s)).hd, (runOps ops (push 0 s)).tl,
          (runOps ops (push 0 s)).cts) = curRun ops (curStep true (s.hd, s.tl, s.cts))
      rw [ih (push 0 s), hp]
    | false =>
      show ((runOps ops (pop s).2).hd, (runOps ops (pop s).2).tl,
          (runOps ops (pop s).2).cts) = curRun ops (curStep false (s.hd, s.tl, s.cts))
      rw [ih (pop s).2]
      rfl

/-- Cursor model of an initial burst of `k ≤ 1001` arrivals into a cleared
queue: head stays at 0, tail ends at `k - 1`, and CTS ends asserted
exactly when the pre-push size of the last push exceeded HIWATER. -/
theorem curRun_phaseA (k : Nat) (h1 : 1 ≤ k) (h2 : k ≤ 1001) :
    curRun (List.replicate k true) (0, ENDQUEUE, false) =
      (0, k - 1, decide (HIWATER < (k : Int) - 1)) := by
  induction k with
  | zero => omega
  | succ k ih =>
    by_cases hk : k = 0
    · subst hk
      show curRun [true] (0, ENDQUEUE, false) = _
      decide
    · rw [List.replicate_succ', curRun_append, ih (by omega) (by omega)]
      have ha1 : addone (k - 1) = k := by
        unfold addone ENDQUEUE QUEUESIZE
        rw [if_neg (by omega)]
        omega
      have ha2 : addone k = k + 1 := by
        unfold addone ENDQUEUE QUEUESIZE
        rw [if_neg (by omega)]
      show (0, if addone (addone (k - 1)) = 0 then k - 1 else addone (k - 1),
          decide (HIWATER < ((addone (k - 1) : Int) - ((0 : Nat) : Int)))) = _
      rw [ha1, ha2, if_neg (by omega)]
      have hb : decide (HIWATER < ((k : Int) - ((0 : Nat) : Int))) =
          decide (HIWATER < ((k + 1 : Nat) : Int) - 1) := by
        rw [decide_eq_decide]
        constructor
        · intro h
          push_cast
          push_cast at h
          omega
        · intro h
          push_cast at h ⊢
          omega
      rw [hb]
      show _ = (0, k + 1 - 1, _)
      rw [Nat.add_sub_cancel]

/-- Cursor model of `j` consumptions: head advances by `j` (no wrap as
long as `head + j` stays below `QUEUESIZE`), tail and CTS unchanged. -/
theorem curRun_pops (j : Nat) : ∀ (h t : Nat) (b : Bool), h + j ≤ ENDQUEUE →
    curRun (List.replicate j false) (h, t, b) = (h + j, t, b) := by
  induction j with
  | zero => intro h t b _; rfl
  | succ j ih =>
    intro h t b hj
    rw [List.replicate_succ', curRun_append, ih h t b (by omega)]
    show (addone (h + j), t, b) = _
    have ha : addone (h + j) = h + j + 1 := by
      unfold addone ENDQUEUE QUEUESIZE at *
      rw [if_neg (by omega)]
    rw [ha]
    rfl

/-- Cursor model of up to 29 further arrivals into the wrapped state
`head = 1000, tail = 1000`: tail wraps past `ENDQUEUE`, CTS ends cleared
(each pre-push signed size is at most 23, below HIWATER). -/
theorem curRun_phaseC (m : Nat) (hm : m ≤ 29) :
    curRun (List.replicate m true) (1000, 1000, true) =
      (1000, (1000 + m) % 1024, if m = 0 then true else false) := by
  induction m with
  | zero => decide
  | succ m ih =>
    rw [List.replicate_succ', curRun_append, ih (by omega)]
    have hlt : (1000 + m) % 1024 < QUEUESIZE := Nat.mod_lt _ (by omega)
    have ha1 : addone ((1000 + m) % 1024) = (1000 + (m + 1)) % 1024 := by
      rw [addone_eq hlt]
      unfold QUEUESIZE
      omega
    show (1000, if addone (addone ((1000 + m) % 1024)) = 1000 then (1000 + m) % 1024
        else addone ((1000 + m) % 1024),
        decide (HIWATER < ((addone ((1000 + m) % 1024) : Int) - ((1000 : Nat) : Int)))) = _
    rw [ha1]
    have hlt2 : (1000 + (m + 1)) % 1024 < QUEUESIZE := Nat.mod_lt _ (by omega)
    have ha2 : addone ((1000 + (m + 1)) % 1024) = (1000 + (m + 2)) % 1024 := by
      rw [addone_eq hlt2]
      unfold QUEUESIZE
      omega
    rw [ha2, if_neg (by omega)]
    have hb : decide (HIWATER < (((1000 + (m + 1)) % 1024 : Nat) : Int) - ((1000 : Nat) : Int))
        = false := by
      apply decide_eq_false
      intro hcon
      unfold HIWATER QUEUESIZE at hcon
      have hle : (1000 + (m + 1)) % 1024 ≤ 1023 := by omega
      push_cast at hcon
      omega
    rw [hb]
    simp

/-- A concrete startup state (arbitrary initial field values; every claim
uses it only through `clear`, matching the firmware's reset). -/
def s0ex : QState :=
  { queue := fun _ => 0, hd := 0, tl := 0, cts := false, cmdActive := false,
    pushed := 0, popped := 0 }

/-- A concrete queue state on the drop branch of `push`:
`addone (addone tail) = head`. -/
def sFullEx : QState :=
  { queue := fun _ => 0, hd := 0, tl := QUEUESIZE - 2, cts := false, cmdActive := false,
    pushed := 0, popped := 0 }

/-- Trace reaching a mid-band state with CTS asserted: 1000 arrivals
(the 1000th sets CTS because 999 > HIWATER), then 600 consumptions. -/
def exMidOps : List Bool := List.replicate 1000 true ++ List.replicate 600 false

/-- The state reached by `exMidOps` from a cleared queue: 400 pending
bytes (inside the watermark band) and CTS still asserted. -/
def exMid : QState := runOps exMidOps (clear s0ex)

/-- Trace reaching a wrapped-cursor state: 1001 arrivals, 1000
consumptions, 29 more arrivals, leaving `head = 1000 > addone tail = 6`. -/
def exWrapOps : List Bool :=
  List.replicate 1001 true ++ List.replicate 1000 false ++ List.replicate 29 true

/-- The wrapped state reached by `exWrapOps` from a cleared queue:
30 pending bytes but `addone(tail) - head = -994`. -/
def exWrap : QState := runOps exWrapOps (clear s0ex)

theorem exMid_cursors : (exMid.hd, exMid.tl, exMid.cts) = (600, 999, true) := by
  have h := runOps_cur exMidOps (clear s0ex)
  have h0 : ((clear s0ex).hd, (clear s0ex).tl, (clear s0ex).cts) =
      ((0 : Nat), ENDQUEUE, false) := rfl
  rw [h0] at h
  rw [show exMidOps = List.replicate 1000 true ++ List.replicate 600 false from rfl,
    curRun_append, curRun_phaseA 1000 (by omega) (by omega)] at h
  have h1 : ((0 : Nat), 1000 - 1, decide (HIWATER < ((1000 : Nat) : Int) - 1)) =
      ((0 : Nat), (999 : Nat), true) := by decide
  rw [h1, curRun_pops 600 0 999 true (by unfold ENDQUEUE QUEUESIZE; omega)] at h
  exact h

theorem exWrap_cursors : (exWrap.hd, exWrap.tl, exWrap.cts) = (1000, 5, false) := by
  have h := runOps_cur exWrapOps (clear s0ex)
  have h0 : ((clear s0ex).hd, (clear s0ex).tl, (clear s0ex).cts) =
      ((0 : Nat), ENDQUEUE, false) := rfl
  rw [h0] at h
  rw [show exWrapOps = (List.replicate 1001 true ++ List.replicate 1000 false) ++
      List.replicate 29 true from rfl, curRun_append, curRun_append,
    curRun_phaseA 1001 (by omega) (by omega)] at h
  have h1 : ((0 : Nat), 1001 - 1, decide (HIWATER < ((1001 : Nat) : Int) - 1)) =
      ((0 : Nat), (1000 : Nat), true) := by decide
  rw [h1, curRun_pops 1000 0 1000 true (by unfold ENDQUEUE QUEUESIZE; omega),
    curRun_phaseC 29 (by omega)] at h
  have h2 : ((1000 : Nat), (1000 + 29) % 1024, if (29 : Nat) = 0 then true else false) =
      ((1000 : Nat), (5 : Nat), false) := by decide
  rw [h2] at h
  exact h

theorem modelRun_append (a : List Bool) : ∀ (b : List Bool) (l : List Nat),
    modelRun (a ++ b) l = (modelRun a l).bind (fun l2 => modelRun b l2) := by
  induction a with
  | nil => intro b l; rfl
  | cons op a ih =>
    intro b l
    cases op with
    | true => exact ih b _
    | false =>
      cases l with
      | nil => rfl
      | cons c t => exact ih b t

theorem modelRun_pushRep (k : Nat) : ∀ l : List Nat, l.length + k ≤ QUEUESIZE - 1 →
    modelRun (List.replicate k true) l = some (l ++ List.replicate k 0) := by
  induction k with
  | zero => intro l _; simp [modelRun]
  | succ k ih =>
    intro l hl
    show modelRun (List.replicate k true) (if l.length = QUEUESIZE - 1 then l else l ++ [0])
        = _
    rw [if_neg (by unfold QUEUESIZE at *; omega)]
    rw [ih (l ++ [0]) (by simp; unfold QUEUESIZE at *; omega)]
    rw [List.append_assoc, List.singleton_append, ← List.replicate_succ]

theorem modelRun_popRep (j : Nat) : ∀ l : List Nat, j ≤ l.length →
    modelRun (List.replicate j false) l = some (l.drop j) := by
  induction j with
  | zero => intro l _; simp [modelRun]
  | succ j ih =>
    intro l hl
    cases l with
    | nil => simp at hl
    | cons c t =>
      show modelRun (List.replicate j false) t = _
      rw [ih t (by simp at hl; omega), List.drop_succ_cons]

theorem modelRun_exWrapOps : modelRun exWrapOps [] = some (List.replicate 30 0) := by
  rw [show exWrapOps = (List.replicate 1001 true ++ List.replicate 1000 false) ++
      List.replicate 29 true from rfl, modelRun_append, modelRun_append]
  rw [modelRun_pushRep 1001 [] (by simp [QUEUESIZE])]
  simp only [Option.some_bind, List.nil_append]
  rw [modelRun_popRep 1000 _ (by simp)]
  simp only [Option.some_bind]
  have hdrop : (List.replicate 1001 (0 : Nat)).drop 1000 = List.replicate 1 0 := by
    rw [show (1001 : Nat) = 1000 + 1 from rfl, List.replicate_add,
      List.drop_left' (by simp)]
  rw [hdrop, modelRun_pushRep 29 _ (by simp [QUEUESIZE])]
  rw [← List.replicate_add]

/-- C1 (FIFO order): any sequence of bytes pushed after a reset, never
exceeding `QUEUESIZE - 2` pending bytes (so no push is dropped), is
returned exactly, in push order, by the subsequent pops. -/
theorem claim1_fifo_order (s0 : QState) (cs : List Nat)
    (hlen : cs.length ≤ QUEUESIZE - 2) :
    (popN cs.length (pushList cs (clear s0))).1 = cs := by
  have h0 : Reach (clear s0) [] := Reach.init s0
  have h1 : Reach (pushList cs (clear s0)) cs := by
    have h2 : Reach (pushList cs (clear s0)) ([] ++ cs) :=
      pushList_reach h0 (by simp; unfold QUEUESIZE at *; omega)
    simpa using h2
  exact (popN_spec h1).1

/-- Witness for C1 at a concrete input: pushing 10, 20, 30 after a reset
and popping three times returns 10, 20, 30. -/
theorem claim1_fifo_order_witness :
    ([10, 20, 30] : List Nat).length ≤ QUEUESIZE - 2 ∧
      (popN 3 (pushList [10, 20, 30] (clear s0ex))).1 = [10, 20, 30] :=
  ⟨by decide, claim1_fifo_order s0ex [10, 20, 30] (by decide)⟩

/-- C2 counterexample: the claim "CTS is left unchanged whenever occupancy
lies between LOWATER and HIWATER inclusive after a push()" is false.
`exMid` is reached from a reset by 1000 pushes and 600 pops; it has 400
pending bytes (strictly inside the band) and CTS asserted, yet `push`
clears CTS. -/
theorem claim2_counterexample :
    exMid.cts = true ∧ LOWATER ≤ rawSize exMid ∧ rawSize exMid ≤ HIWATER ∧
      (push 65 exMid).cts = false := by
  have h := exMid_cursors
  simp only [Prod.mk.injEq] at h
  obtain ⟨hh, ht, hc⟩ := h
  have hr : rawSize exMid = 400 := by
    unfold rawSize
    rw [hh, ht]
    decide
  refine ⟨hc, ?_, ?_, ?_⟩
  · rw [hr]; decide
  · rw [hr]; decide
  · rw [push_cts, hr]; decide

/-- C2 (amended): after `push()`, CTS equals "pre-push signed size above
HIWATER" — the else-branch clears CTS even inside the band (no hysteresis
in `push`); after `size()`, the two-threshold hysteresis holds: asserted
above HIWATER, cleared below LOWATER, otherwise unchanged; and `size()`
returns the signed value `addone(tail) - head`. -/
theorem claim2_cts_behavior (s : QState) (c : Nat) :
    ((push c s).cts = if HIWATER < rawSize s then true else false) ∧
      ((size s).2.cts =
        if rawSize s < LOWATER then false
        else if HIWATER < rawSize s then true
        else s.cts) ∧
      (size s).1 = rawSize s := by
  refine ⟨?_, ?_, rfl⟩
  · by_cases hfull : addone (addone s.tl) = s.hd
    · rw [push_of_full c hfull]
    · rw [push_of_not_full c hfull]
  · unfold size
    by_cases h1 : HIWATER < rawSize s
    · by_cases h2 : rawSize s < LOWATER
      · simp [h1, h2]
      · simp [h1, h2]
    · by_cases h2 : rawSize s < LOWATER
      · simp [h1, h2]
      · simp [h1, h2]

/-- C3 (dropped-push atomicity): when `addone(addone(tail)) == head`
(fewer than 2 free slots), `push` leaves head, tail, the stored bytes and
`bytes_pushed` unchanged, so `empty()` and occupancy are preserved;
otherwise it stores the byte at `addone(tail)` and advances `tail`. -/
theorem claim3_dropped_push_atomicity (s : QState) (c : Nat) :
    (addone (addone s.tl) = s.hd →
      (push c s).hd = s.hd ∧ (push c s).tl = s.tl ∧ (push c s).queue = s.queue ∧
        (push c s).pushed = s.pushed ∧ empty (push c s) = empty s ∧
        occ (push c s) = occ s) ∧
    (addone (addone s.tl) ≠ s.hd →
      (push c s).queue (addone s.tl) = c ∧ (push c s).tl = addone s.tl ∧
        (push c s).hd = s.hd ∧ (push c s).pushed = s.pushed + 1) := by
  constructor
  · intro hfull
    rw [push_of_full c hfull]
    exact ⟨rfl, rfl, rfl, rfl, rfl, rfl⟩
  · intro hfull
    rw [push_of_not_full c hfull]
    refine ⟨?_, rfl, rfl, rfl⟩
    show (if addone s.tl = addone s.tl then c else s.queue (addone s.tl)) = c
    rw [if_pos rfl]

/-- Witness for C3 at concrete inputs: a drop on the full state `sFullEx`
leaves `tail` in place, and a successful push on the cleared-like state
`s0ex` stores the byte at `addone tail`. -/
theorem claim3_dropped_push_atomicity_witness :
    (push 7 sFullEx).tl = sFullEx.tl ∧ (push 7 s0ex).queue (addone s0ex.tl) = 7 :=
  ⟨((claim3_dropped_push_atomicity sFullEx 7).1 (by decide)).2.1,
   ((claim3_dropped_push_atomicity s0ex 7).2 (by decide)).1⟩

/-- C4: the `empty()` half holds on every reachable state (empty exactly
when all pushed bytes have been popped), but the `size()` half fails on
wrapped cursors: the reachable state `exWrap` (1001 pushes, 1000 pops, 29
pushes after a reset) has 30 pending bytes while `size()` computes
`addone(tail) - head = -994` with no modulo correction. -/
theorem claim4_occupancy :
    (∀ (s : QState) (l : List Nat), Reach s l → (empty s = true ↔ l = [])) ∧
      Reach exWrap (List.replicate 30 0) ∧
      (List.replicate 30 (0 : Nat)).length = 30 ∧
      rawSize exWrap = -994 ∧ (size exWrap).1 = -994 := by
  have hraw : rawSize exWrap = -994 := by
    have h := exWrap_cursors
    simp only [Prod.mk.injEq] at h
    obtain ⟨hh, ht, hc⟩ := h
    unfold rawSize
    rw [hh, ht]
    decide
  refine ⟨?_, ?_, by simp, hraw, hraw⟩
  · intro s l h
    obtain ⟨hh, ht, _, hocc, _⟩ := reach_inv h
    rw [empty_iff_occ hh ht, hocc]
    exact List.length_eq_zero
  · exact runOps_reach (Reach.init s0ex) modelRun_exWrapOps

/-- Witness for C4's universally quantified half at a concrete input: a
freshly cleared queue is reported empty. -/
theorem claim4_occupancy_witness : empty (clear s0ex) = true :=
  (claim4_occupancy.1 (clear s0ex) [] (Reach.init s0ex)).mpr rfl

/-- `charToHexDigit(c)`: `if (c >= 'a') return c - 'a' + 10; else if
(c >= 'A') return c - 'A' + 10; else return c - '0';`.  `char` is unsigned
on this compiler, so `c` ranges over 0..255; the `uint8_t` return wraps
modulo 256 (only the `c - '0'` branch can underflow, for `c < '0'`). -/
def charToHexDigit (c : Nat) : Nat :=
  if 97 ≤ c then (c - 97 + 10) % 256
  else if 65 ≤ c then (c - 65 + 10) % 256
  else (c + 256 - 48) % 256

/-- Statement-side abstraction: the bytes a hex character stream decodes
to, two characters per byte, `hi*16+lo` in `uint8_t`. -/
def decodeHexPairs : List Nat → List Nat
  | c1 :: c2 :: rest =>
    (charToHexDigit c1 * 16 + charToHexDigit c2) % 256 :: decodeHexPairs rest
  | _ => []

/-- The `for` loop of `do_write` with the command-active flag held true
(so the abort branch never fires): for each of `k` addresses starting at
`addr`, pop two characters, decode `hi*16+lo` in `uint8_t`, and program
the byte at the address (recorded as an (address, byte) pair; the
per-family control-line pulses of `write_port` carry no data). -/
def writeSweep : Nat → Nat → QState → List (Nat × Nat) × QState
  | _, 0, s => ([], s)
  | addr, Nat.succ k, s =>
    let p1 := pop s
    let hi := charToHexDigit p1.1
    let p2 := pop p1.2
    let lo := charToHexDigit p2.1
    let data := (hi * 16 + lo) % 256
    let rest := writeSweep (addr + 1) k p2.2
    ((addr, data) :: rest.1, rest.2)

/-- `do_write` over `devSize` addresses: the programmed (address, byte)
pairs and the final queue state. -/
def do_write (devSize : Nat) (s : QState) : List (Nat × Nat) × QState :=
  writeSweep 0 devSize s

theorem writeSweep_spec (k : Nat) : ∀ (a : Nat) (s : QState) (l : List Nat),
    Reach s l → 2 * k ≤ l.length →
    (writeSweep a k s).1 = (List.range' a k).zip (decodeHexPairs (l.take (2 * k))) ∧
      Reach (writeSweep a k s).2 (l.drop (2 * k)) ∧
      (writeSweep a k s).2.popped = s.popped + 2 * k := by
  induction k with
  | zero =>
    intro a s l h _
    exact ⟨rfl, h, rfl⟩
  | succ k ih =>
    intro a s l h hlen
    match l, hlen with
    | c1 :: c2 :: rest, hlen =>
      obtain ⟨hc1, hr1⟩ := pop_cons h
      obtain ⟨hc2, hr2⟩ := pop_cons hr1
      have hrest : 2 * k ≤ rest.length := by simp at hlen; omega
      obtain ⟨ih1, ih2, ih3⟩ := ih (a + 1) (pop (pop s).2).2 rest hr2 hrest
      refine ⟨?_, ?_, ?_⟩
      · show ((a, (charToHexDigit (pop s).1 * 16 + charToHexDigit (pop (pop s).2).1) % 256)
          :: (writeSweep (a + 1) k (pop (pop s).2).2).1) = _
        rw [hc1, hc2, ih1]
        have htake : (c1 :: c2 :: rest).take (2 * (k + 1)) =
            c1 :: c2 :: rest.take (2 * k) := by
          rw [show 2 * (k + 1) = 2 * k + 1 + 1 from by omega]
          rfl
        rw [htake]
        rfl
      · show Reach (writeSweep (a + 1) k (pop (pop s).2).2).2 _
        have hdrop : (c1 :: c2 :: rest).drop (2 * (k + 1)) = rest.drop (2 * k) := by
          rw [show 2 * (k + 1) = 2 * k + 1 + 1 from by omega]
          rfl
        rw [hdrop]
        exact ih2
      · show (writeSweep (a + 1) k (pop (pop s).2).2).2.popped = s.popped + 2 * (k + 1)
        rw [ih3]
        show (pop s).2.popped + 1 + 2 * k = s.popped + 2 * (k + 1)
        show s.popped + 1 + 1 + 2 * k = s.popped + 2 * (k + 1)
        omega

/-- C6 (WRITE payload consumption): with the command flag held true and
enough payload in the queue, `do_write` over `n` addresses pops exactly
`2 * n` characters, programs address `i` with
`16 * hexValue(first) + hexValue(second)` of the `i`-th character pair,
leaves the rest of the queue pending in order, and `charToHexDigit`
decodes digits and both letter cases to the same values. -/
theorem claim6_write_payload (n : Nat) (s : QState) (l : List Nat)
    (h : Reach s l) (hn : 2 * n ≤ l.length) :
    (do_write n s).1 = (List.range n).zip (decodeHexPairs (l.take (2 * n))) ∧
      (do_write n s).2.popped = s.popped + 2 * n ∧
      Reach (do_write n s).2 (l.drop (2 * n)) ∧
      (∀ k, k < 6 → charToHexDigit (65 + k) = 10 + k ∧ charToHexDigit (97 + k) = 10 + k) ∧
      (∀ d, d < 10 → charToHexDigit (48 + d) = d) := by
  obtain ⟨h1, h2, h3⟩ := writeSweep_spec n 0 s l h hn
  refine ⟨?_, h3, h2, ?_, ?_⟩
  · rw [List.range_eq_range']
    exact h1
  · intro k hk
    constructor
    · unfold charToHexDigit
      rw [if_neg (by omega), if_pos (by omega)]
      omega
    · unfold charToHexDigit
      rw [if_pos (by omega)]
      omega
  · intro d hd
    unfold charToHexDigit
    rw [if_neg (by omega), if_neg (by omega)]
    omega

/-- Witness for C6 at a concrete input: with payload "aA" buffered,
writing one address programs byte 0xAA at address 0 and pops both
characters. -/
theorem claim6_write_payload_witness :
    (do_write 1 (pushList [97, 65] (clear s0ex))).1 = [(0, 170)] ∧
      (do_write 1 (pushList [97, 65] (clear s0ex))).2.popped =
        (pushList [97, 65] (clear s0ex)).popped + 2 := by
  have hr : Reach (pushList [97, 65] (clear s0ex)) ([] ++ [97, 65]) :=
    pushList_reach (Reach.init s0ex) (by decide)
  have h := claim6_write_payload 1 (pushList [97, 65] (clear s0ex)) [97, 65] hr (by decide)
  exact ⟨h.1, h.2.1⟩

/-- C10 (hex decoding is total and unvalidated): `charToHexDigit` decodes
the three hex ranges correctly, and on every other byte still returns a
well-defined value with no error indication — bytes at or above `'a'` are
decoded as if lowercase hex, bytes in `'A'..'`'` as if uppercase hex, and
everything below `'A'` relative to `'0'` (wrapping in `uint8_t`); hence
the WRITE loop always programs a well-defined byte. -/
theorem claim10_hex_total (c : Nat) (hc : c < 256) :
    (48 ≤ c → c ≤ 57 → charToHexDigit c = c - 48) ∧
      (65 ≤ c → c ≤ 70 → charToHexDigit c = c - 65 + 10) ∧
      (97 ≤ c → c ≤ 102 → charToHexDigit c = c - 97 + 10) ∧
      (97 ≤ c → charToHexDigit c = (c - 97 + 10) % 256) ∧
      (65 ≤ c → c ≤ 96 → charToHexDigit c = c - 65 + 10) ∧
      (c < 65 → charToHexDigit c = (c + 256 - 48) % 256) ∧
      charToHexDigit c < 256 ∧
      (∀ d : Nat, (charToHexDigit c * 16 + charToHexDigit d) % 256 < 256) := by
  refine ⟨?_, ?_, ?_, ?_, ?_, ?_, ?_, ?_⟩
  · intro g1 g2
    unfold charToHexDigit
    split_ifs <;> omega
  · intro g1 g2
    unfold charToHexDigit
    split_ifs <;> omega
  · intro g1 g2
    unfold charToHexDigit
    split_ifs <;> omega
  · intro g1
    unfold charToHexDigit
    split_ifs <;> omega
  · intro g1 g2
    unfold charToHexDigit
    split_ifs <;> omega
  · intro g1
    unfold charToHexDigit
    split_ifs <;> omega
  · unfold charToHexDigit
    split_ifs <;> omega
  · intro d
    exact Nat.mod_lt _ (by omega)

/-- Witness for C10 at concrete inputs: `'A'` and `'a'` both decode to 10,
`'0'` decodes to 0, and the non-hex byte 200 decodes (without error) as
if lowercase hex. -/
theorem claim10_hex_total_witness :
    charToHexDigit 65 = 10 ∧ charToHexDigit 97 = 10 ∧ charToHexDigit 48 = 0 ∧
      charToHexDigit 200 = (200 - 97 + 10) % 256 :=
  ⟨(claim10_hex_total 65 (by decide)).2.1 (by decide) (by decide),
   (claim10_hex_total 97 (by decide)).2.2.1 (by decide) (by decide),
   (claim10_hex_total 48 (by decide)).1 (by decide) (by decide),
   (claim10_hex_total 200 (by decide)).2.2.2.1 (by decide)⟩

/-- `#define DEV_2716 0` -/
def DEV_2716 : Int := 0

/-- `#define DEV_2732 1` -/
def DEV_2732 : Int := 1

/-- `#define DEV_2532 2` -/
def DEV_2532 : Int := 2

/-- The device configuration of the 2716 variant: the `devType` variable
(`int8_t`), the `bytes` device size (`int16_t`, values 2048/4096), and the
wiring-select outputs `PORTEbits.RE0`/`RE1`. -/
structure Config where
  devType : Int
  bytes : Nat
  re0 : Bool
  re1 : Bool
deriving DecidableEq

/-- The `(int8_t)` cast applied to the popped byte in `do_type`. -/
def toInt8 (n : Nat) : Int :=
  if n % 256 < 128 then (n % 256 : Nat) else (n % 256 : Nat) - 256

/-- `do_type()`: `devType = (int8_t) pop();` — the assignment happens
before any validation — then the recognized families select `bytes` and
the RE0/RE1 wiring outputs; an unrecognized value matches no branch and
leaves `bytes`/RE0/RE1 alone (but `devType` has already been
overwritten).  The popped byte is passed as the argument `c`. -/
def do_type (c : Nat) (cfg : Config) : Config :=
  let dt := toInt8 c
  let cfg1 := { cfg with devType := dt }
  if dt = DEV_2716 then { cfg1 with bytes := 2048, re0 := false, re1 := false }
  else if dt = DEV_2732 then { cfg1 with bytes := 4096, re0 := true, re1 := false }
  else if dt = DEV_2532 then { cfg1 with bytes := 4096, re0 := false, re1 := true }
  else cfg1

/-- The concrete 2732-family configuration (as set by `do_type` on 1). -/
def cfg2732 : Config := { devType := 1, bytes := 4096, re0 := true, re1 := false }

/-- C7 counterexample: the claim "SET-TYPE with an unrecognized family
byte leaves every piece of device configuration, including the stored
device-type value, at its previous value" is false: popping byte 7 on the
2732 configuration overwrites `devType` with 7. -/
theorem claim7_counterexample :
    toInt8 7 ≠ DEV_2716 ∧ toInt8 7 ≠ DEV_2732 ∧ toInt8 7 ≠ DEV_2532 ∧
      (do_type 7 cfg2732).devType = 7 ∧ cfg2732.devType = 1 ∧
      do_type 7 cfg2732 ≠ cfg2732 := by
  decide

/-- C7 (amended): an unrecognized family byte leaves the device size and
the RE0/RE1 wiring-select outputs unchanged and does not crash, but the
stored `devType` is overwritten with the (sign-extended) popped byte —
after which subsequent operations match no family branch. -/
theorem claim7_set_type_unrecognized (cfg : Config) (c : Nat)
    (h0 : toInt8 c ≠ DEV_2716) (h1 : toInt8 c ≠ DEV_2732) (h2 : toInt8 c ≠ DEV_2532) :
    (do_type c cfg).bytes = cfg.bytes ∧ (do_type c cfg).re0 = cfg.re0 ∧
      (do_type c cfg).re1 = cfg.re1 ∧ (do_type c cfg).devType = toInt8 c := by
  simp [do_type, h0, h1, h2]

/-- Witness for C7 at a concrete input: family byte 7 on the 2732
configuration keeps the size and wiring but stores devType = 7. -/
theorem claim7_set_type_unrecognized_witness :
    (do_type 7 cfg2732).bytes = 4096 ∧ (do_type 7 cfg2732).devType = 7 :=
  ⟨(claim7_set_type_unrecognized cfg2732 7 (by decide) (by decide) (by decide)).1,
   (claim7_set_type_unrecognized cfg2732 7 (by decide) (by decide) (by decide)).2.2.2⟩

/-- The CMD_IDEN branch of the 2716 variant's dispatcher: the string sent
for each configured `devType` (note the `devType == 1` branch, which is
`DEV_2732`, sends "2532"). -/
def identify2 (devType : Int) : String :=
  if devType = 0 then "2716"
  else if devType = 1 then "2532"
  else if devType = 2 then "2532"
  else "NONE"

/-- The CMD_IDEN branch of the 2708 variant: a fixed firmware string. -/
def identify1 : String := "2708"

/-- C8 (IDENTIFY output): the command emits a fixed string per configured
type ("2716"/"NONE", and "2708" in the 2708 variant), but for the 2732
family (`devType = DEV_2732 = 1`) it emits "2532", not a string naming
the 2732 family — the branch reuses the 2532 string. -/
theorem claim8_identify_output :
    identify2 0 = "2716" ∧ identify2 DEV_2732 = "2532" ∧
      identify2 DEV_2732 ≠ "2732" ∧ identify2 2 = "2532" ∧ identify1 = "2708" ∧
      (∀ d : Int, d ≠ 0 → d ≠ 1 → d ≠ 2 → identify2 d = "NONE") := by
  refine ⟨by decide, by decide, by decide, by decide, rfl, ?_⟩
  intro d h0 h1 h2
  simp [identify2, h0, h1, h2]

/-- Witness for C8's quantified conjunct at a concrete input: an
unconfigured type value emits "NONE". -/
theorem claim8_identify_output_witness : identify2 9 = "NONE" :=
  claim8_identify_output.2.2.2.2.2 9 (by decide) (by decide) (by decide)

/-- UART output events of the blank-check sweep: the "OK" success string,
or the "Erase check fail at address 0x.... = 0x..\n" report carrying the
offending address and sampled byte. -/
inductive Out
  | outOK : Out
  | failAt (addr data : Nat) : Out
deriving DecidableEq

/-- `setup_address` of the 2708 variant: `LATB = addr & 0xff; LATA = (addr
>> 8) & 0x03` — the device sees only the low 10 address bits. -/
def latched1 (a : Nat) : Nat := a % 256 + 256 * (a / 256 % 4)

/-- `setup_address` of the 2716 variant: `LATB = addr & 0xff; LATA = (addr
>> 8) & 0x0f` — the device sees only the low 12 address bits. -/
def latched2 (a : Nat) : Nat := a % 256 + 256 * (a / 256 % 16)

/-- The `for` loop of `do_blank` with the command flag held true: visit
`k` addresses from `addr`; at the first sampled byte differing from 0xFF,
stop (`break`) and record the mismatch.  Returns the visited addresses and
the optional first mismatch; `rd` is the sampled byte as a function of the
loop address (the device memory behind the latched address bits). -/
def blankSweep (rd : Nat → Nat) : Nat → Nat → List Nat × Option (Nat × Nat)
  | _, 0 => ([], none)
  | addr, Nat.succ k =>
    if rd addr ≠ 255 then ([addr], some (addr, rd addr))
    else
      let rest := blankSweep rd (addr + 1) k
      (addr :: rest.1, rest.2)

/-- `do_blank` of the 2716 variant: sweep `[0, bytes)` and emit "OK" iff
no mismatch was found, else the single failure report. -/
def do_blank2 (mem : Nat → Nat) (n : Nat) : List Nat × List Out :=
  match blankSweep (fun a => mem (latched2 a)) 0 n with
  | (v, none) => (v, [Out.outOK])
  | (v, some (a, d)) => (v, [Out.failAt a d])

/-- `do_blank` of the 2708 variant: the loop bound is the literal 1048
(`for (addr = 0; addr < 1048; ++addr)`), not 1024. -/
def do_blank1 (mem : Nat → Nat) : List Nat × List Out :=
  match blankSweep (fun a => mem (latched1 a)) 0 1048 with
  | (v, none) => (v, [Out.outOK])
  | (v, some (a, d)) => (v, [Out.failAt a d])

/-- The `for` loop of `do_read` with the command flag held true: visit `k`
addresses from `addr`, sampling each (the hex-dump formatting carries the
same (address, byte) data). -/
def readSweep (rd : Nat → Nat) : Nat → Nat → List (Nat × Nat)
  | _, 0 => []
  | addr, Nat.succ k => (addr, rd addr) :: readSweep rd (addr + 1) k

/-- `do_read` of the 2716 variant: sweep `[0, bytes)`. -/
def do_read2 (mem : Nat → Nat) (n : Nat) : List (Nat × Nat) :=
  readSweep (fun a => mem (latched2 a)) 0 n

/-- `do_read` of the 2708 variant: sweep `[0, 1024)`. -/
def do_read1 (mem : Nat → Nat) : List (Nat × Nat) :=
  readSweep (fun a => mem (latched1 a)) 0 1024

theorem blankSweep_all (rd : Nat → Nat) (k : Nat) : ∀ a : Nat,
    (∀ i, i < k → rd (a + i) = 255) →
    blankSweep rd a k = (List.range' a k, none) := by
  induction k with
  | zero => intro a _; rfl
  | succ k ih =>
    intro a h
    have h0 : rd a = 255 := by simpa using h 0 (by omega)
    have hrec := ih (a + 1) (fun i hi => by
      rw [show a + 1 + i = a + (i + 1) from by omega]
      exact h (i + 1) (by omega))
    simp only [blankSweep, h0, ne_eq, not_true_eq_false, if_false, hrec]
    rfl

theorem blankSweep_fail (rd : Nat → Nat) (k : Nat) : ∀ a j : Nat, j < k →
    rd (a + j) ≠ 255 → (∀ i, i < j → rd (a + i) = 255) →
    blankSweep rd a k = (List.range' a (j + 1), some (a + j, rd (a + j))) := by
  induction k with
  | zero => intro a j hj; omega
  | succ k ih =>
    intro a j hj hf hpre
    cases j with
    | zero =>
      have hf0 : rd a ≠ 255 := by simpa using hf
      simp only [blankSweep, hf0, ne_eq, not_false_eq_true, if_true]
      simp [List.range'_one]
    | succ j =>
      have h0 : rd a = 255 := by simpa using hpre 0 (by omega)
      have hrec := ih (a + 1) j (by omega)
        (by rw [show a + 1 + j = a + (j + 1) from by omega]; exact hf)
        (fun i hi => by
          rw [show a + 1 + i = a + (i + 1) from by omega]
          exact hpre (i + 1) (by omega))
      simp only [blankSweep, h0, ne_eq, not_true_eq_false, if_false, hrec]
      rw [show a + 1 + j = a + (j + 1) from by omega]
      rfl

theorem blankSweep_none_iff (rd : Nat → Nat) (k : Nat) : ∀ a : Nat,
    (blankSweep rd a k).2 = none ↔ ∀ i, i < k → rd (a + i) = 255 := by
  induction k with
  | zero =>
    intro a
    simp [blankSweep]
  | succ k ih =>
    intro a
    by_cases h0 : rd a = 255
    · have hstep : blankSweep rd a (k + 1) =
          (a :: (blankSweep rd (a + 1) k).1, (blankSweep rd (a + 1) k).2) := by
        simp [blankSweep, h0]
      rw [hstep]
      show (blankSweep rd (a + 1) k).2 = none ↔ _
      rw [ih (a + 1)]
      constructor
      · intro hall i hi
        cases i with
        | zero => simpa using h0
        | succ i =>
          rw [show a + (i + 1) = a + 1 + i from by omega]
          exact hall i (by omega)
      · intro hall i hi
        rw [show a + 1 + i = a + (i + 1) from by omega]
        exact hall (i + 1) (by omega)
    · have hstep : blankSweep rd a (k + 1) = ([a], some (a, rd a)) := by
        simp [blankSweep, h0]
      rw [hstep]
      constructor
      · intro hcon
        simp at hcon
      · intro hall
        exact absurd (by simpa using hall 0 (by omega)) h0

theorem readSweep_eq (rd : Nat → Nat) (k : Nat) : ∀ a : Nat,
    readSweep rd a k = (List.range' a k).map (fun x => (x, rd x)) := by
  induction k with
  | zero => intro a; rfl
  | succ k ih =>
    intro a
    show (a, rd a) :: readSweep rd (a + 1) k = _
    rw [ih (a + 1)]
    rfl

/-- C5 (BLANK-CHECK sweep), settled against both variants.  For the 2716
variant: on an all-0xFF device the sweep visits exactly `[0, n)` — the
same range `do_read` visits; at a first mismatch `j` it emits the failure
report for `j` with the sampled byte and iterates no further (visited
`= [0, j]`); and it emits "OK" iff every address sampled 0xFF.  For the
2708 variant the claim fails: on an all-0xFF device `do_blank` visits
`[0, 1048)` while `do_read` visits `[0, 1024)` — the loop bound 1048 is a
typo for 1024. -/
theorem claim5_blank_sweep (mem : Nat → Nat) (n : Nat) :
    ((∀ a, a < n → mem (latched2 a) = 255) →
      do_blank2 mem n = (List.range n, [Out.outOK]) ∧
        (do_read2 mem n).map Prod.fst = List.range n) ∧
      (∀ j, j < n → mem (latched2 j) ≠ 255 → (∀ i, i < j → mem (latched2 i) = 255) →
        do_blank2 mem n = (List.range (j + 1), [Out.failAt j (mem (latched2 j))])) ∧
      ((do_blank2 mem n).2 = [Out.outOK] ↔ ∀ a, a < n → mem (latched2 a) = 255) ∧
      ((∀ a, a < 1048 → mem (latched1 a) = 255) →
        (do_blank1 mem).1 = List.range 1048 ∧
          (do_read1 mem).map Prod.fst = List.range 1024) ∧
      (List.range 1048 : List Nat) ≠ List.range 1024 := by
  refine ⟨?_, ?_, ?_, ?_, ?_⟩
  · intro hall
    have hs := blankSweep_all (fun a => mem (latched2 a)) n 0
      (fun i hi => by simpa using hall i hi)
    constructor
    · unfold do_blank2
      rw [hs, List.range_eq_range']
    · unfold do_read2
      rw [readSweep_eq, List.map_map, List.range_eq_range']
      rw [show (Prod.fst ∘ fun x : Nat => (x, mem (latched2 x))) = id from rfl, List.map_id]
  · intro j hj hf hpre
    have hs := blankSweep_fail (fun a => mem (latched2 a)) n 0 j hj
      (by simpa using hf) (fun i hi => by simpa using hpre i hi)
    unfold do_blank2
    rw [hs]
    simp [List.range_eq_range']
  · have hiff := blankSweep_none_iff (fun a => mem (latched2 a)) n 0
    unfold do_blank2
    rcases hsw : blankSweep (fun a => mem (latched2 a)) 0 n with ⟨v, r⟩
    rw [hsw] at hiff
    cases r with
    | none =>
      constructor
      · intro _ i hi
        simpa using hiff.mp rfl i hi
      · intro _
        rfl
    | some p =>
      rcases p with ⟨a, d⟩
      constructor
      · intro hcon
        exact absurd hcon (by simp)
      · intro hall
        exact absurd (hiff.mpr (fun i hi => by simpa using hall i hi)) (by simp)
  · intro hall
    have hs := blankSweep_all (fun a => mem (latched1 a)) 1048 0
      (fun i hi => by simpa using hall i hi)
    constructor
    · unfold do_blank1
      rw [hs, List.range_eq_range']
    · unfold do_read1
      rw [readSweep_eq, List.map_map, List.range_eq_range']
      rw [show (Prod.fst ∘ fun x : Nat => (x, mem (latched1 x))) = id from rfl, List.map_id]
  · intro hcon
    have := congrArg List.length hcon
    simp at this

/-- A concrete all-erased device. -/
def memFFex : Nat → Nat := fun _ => 255

/-- A concrete device with a single non-erased byte (0x00 at address 2). -/
def memBadEx : Nat → Nat := fun a => if a = 2 then 0 else 255

/-- Witness for C5 at concrete inputs: the 2716-variant blank check of an
all-FF 4-byte range reports OK over `[0, 4)`; with a 0x00 byte at address
2 it stops at address 2 with the failure report; and the 2708-variant
sweep of an all-FF device visits `[0, 1048)`. -/
theorem claim5_blank_sweep_witness :
    do_blank2 memFFex 4 = (List.range 4, [Out.outOK]) ∧
      do_blank2 memBadEx 5 = (List.range 3, [Out.failAt 2 0]) ∧
      (do_blank1 memFFex).1 = List.range 1048 := by
  refine ⟨((claim5_blank_sweep memFFex 4).1 (fun a ha => rfl)).1, ?_, ?_⟩
  · have h := (claim5_blank_sweep memBadEx 5).2.1 2 (by omega) (by decide)
      (by decide)
    exact h
  · exact (((claim5_blank_sweep memFFex 0).2.2.2.1) (fun a ha => rfl)).1

/-- `#define CMD_READ '1'` -/
def CMD_READ : Nat := 49

/-- `#define CMD_WRTE '2'` -/
def CMD_WRTE : Nat := 50

/-- `#define CMD_CHEK '3'` -/
def CMD_CHEK : Nat := 51

/-- `#define CMD_IDEN '4'` -/
def CMD_IDEN : Nat := 52

/-- `#define CMD_TYPE '5'` -/
def CMD_TYPE : Nat := 53

/-- `#define CMD_INIT 'U'` -/
def CMD_INIT : Nat := 85

/-- Dispatcher events of one command cycle: the invocation of an
operation handler, or a direct UART emission from the dispatcher. -/
inductive Act
  | actRead : Act
  | actWrite : Act
  | actBlank : Act
  | actAlreadyInit : Act
  | actType : Act
  | actIden (s : String) : Act
deriving DecidableEq

/-- A cleared queue is reported empty. -/
theorem empty_clear (s : QState) : empty (clear s) = true := by
  simp [empty, clear, addone, ENDQUEUE, QUEUESIZE]

/-- One iteration of the 2716-variant main loop with `cmd_active` set: pop
the `'$'`, pop the command byte, dispatch through the `if`/`else if`
chain (handler invocations and the dispatcher's own UART emissions
recorded as `Act` events; the handlers' internal behavior is modelled by
`do_write`/`do_blank2`/`do_type`/`identify2` above), then `clear()` the
queue.  An unrecognized command byte matches no branch: no event. -/
def dispatchCycle (cfg : Config) (s : QState) : List Act × QState :=
  let s1 := (pop s).2
  let p := pop s1
  let cmd := p.1
  let s2 := p.2
  let acts :=
    if cmd = CMD_READ then [Act.actRead]
    else if cmd = CMD_WRTE then [Act.actWrite]
    else if cmd = CMD_CHEK then [Act.actBlank]
    else if cmd = CMD_INIT then [Act.actAlreadyInit]
    else if cmd = CMD_TYPE then [Act.actType]
    else if cmd = CMD_IDEN then [Act.actIden (identify2 cfg.devType)]
    else []
  (acts, clear s2)

/-- C9 (unknown-command policy): a `'$'` followed by a command byte
outside the recognized set invokes no handler and emits nothing, and the
cycle ends with the queue reset to its initial empty configuration and
the command-active flag false. -/
theorem claim9_unknown_command (cfg : Config) (s : QState)
    (h1 : (pop (pop s).2).1 ≠ CMD_READ) (h2 : (pop (pop s).2).1 ≠ CMD_WRTE)
    (h3 : (pop (pop s).2).1 ≠ CMD_CHEK) (h4 : (pop (pop s).2).1 ≠ CMD_INIT)
    (h5 : (pop (pop s).2).1 ≠ CMD_TYPE) (h6 : (pop (pop s).2).1 ≠ CMD_IDEN) :
    (dispatchCycle cfg s).1 = [] ∧
      (dispatchCycle cfg s).2.cmdActive = false ∧
      empty (dispatchCycle cfg s).2 = true ∧
      (dispatchCycle cfg s).2.hd = 0 ∧ (dispatchCycle cfg s).2.tl = ENDQUEUE ∧
      ∀ j, (dispatchCycle cfg s).2.queue j = 0 := by
  have hd : dispatchCycle cfg s = ([], clear (pop (pop s).2).2) := by
    simp only [dispatchCycle]
    rw [if_neg h1, if_neg h2, if_neg h3, if_neg h4, if_neg h5, if_neg h6]
  rw [hd]
  exact ⟨rfl, rfl, empty_clear _, rfl, rfl, fun j => rfl⟩

/-- Witness for C9 at a concrete input: the token `"$X"` (0x24 0x58)
produces no event and leaves the queue cleared. -/
theorem claim9_unknown_command_witness :
    (dispatchCycle cfg2732 (pushList [36, 88] (clear s0ex))).1 = [] ∧
      empty (dispatchCycle cfg2732 (pushList [36, 88] (clear s0ex))).2 = true ∧
      (dispatchCycle cfg2732 (pushList [36, 88] (clear s0ex))).2.cmdActive = false := by
  have h := claim9_unknown_command cfg2732 (pushList [36, 88] (clear s0ex))
    (by decide) (by decide) (by decide) (by decide) (by decide) (by decide)
  exact ⟨h.1, h.2.2.1, h.2.1⟩

end EPROM
